import Mathlib

/-!
Shallow embedding of the rustray ray tracer (src/point.rs, src/scene.rs,
src/rendering.rs) over the real numbers, together with theorems checking the
natural-language specification against it.  Machine floats (f32/f64) are
modelled as real numbers; the saturating float-to-integer casts of Rust are
modelled explicitly.
-/

namespace RT

noncomputable section

/-- Modelled from the spec: the repository module `vector3.rs` is not present
under src/ (only its callers are).  Operations follow spec section 4.1:
`dot`, `cross`, `length = sqrt(dot v v)`, `norm = dot v v`,
`normalize = v / length v`, plus the componentwise vector arithmetic the
callers in src/ use. -/
structure Vector3 where
  x : ℝ
  y : ℝ
  z : ℝ

namespace Vector3

def dot (a b : Vector3) : ℝ := a.x * b.x + a.y * b.y + a.z * b.z

def cross (a b : Vector3) : Vector3 :=
  ⟨a.y * b.z - a.z * b.y, a.z * b.x - a.x * b.z, a.x * b.y - a.y * b.x⟩

def norm (v : Vector3) : ℝ := dot v v

def length (v : Vector3) : ℝ := Real.sqrt (norm v)

def normalize (v : Vector3) : Vector3 :=
  ⟨v.x / length v, v.y / length v, v.z / length v⟩

def add (a b : Vector3) : Vector3 := ⟨a.x + b.x, a.y + b.y, a.z + b.z⟩

def sub (a b : Vector3) : Vector3 := ⟨a.x - b.x, a.y - b.y, a.z - b.z⟩

def neg (a : Vector3) : Vector3 := ⟨-a.x, -a.y, -a.z⟩

def smul (r : ℝ) (a : Vector3) : Vector3 := ⟨r * a.x, r * a.y, r * a.z⟩

instance : Add Vector3 := ⟨add⟩
instance : Sub Vector3 := ⟨sub⟩
instance : Neg Vector3 := ⟨neg⟩
instance : HMul ℝ Vector3 Vector3 := ⟨smul⟩
instance : HMul Vector3 ℝ Vector3 := ⟨fun v r => smul r v⟩

end Vector3

/-- `Point` from src/point.rs. -/
structure Point where
  x : ℝ
  y : ℝ
  z : ℝ

namespace Point

/-- point + vector (src/point.rs `impl Add<Vector3> for Point`). -/
def addVec (p : Point) (v : Vector3) : Point := ⟨p.x + v.x, p.y + v.y, p.z + v.z⟩

/-- point - vector (src/point.rs `impl Sub<Vector3> for Point`). -/
def subVec (p : Point) (v : Vector3) : Point := ⟨p.x - v.x, p.y - v.y, p.z - v.z⟩

/-- point - point gives a vector (src/point.rs `impl Sub<Point> for Point`). -/
def subPoint (p q : Point) : Vector3 := ⟨p.x - q.x, p.y - q.y, p.z - q.z⟩

instance : HAdd Point Vector3 Point := ⟨addVec⟩
instance : HSub Point Vector3 Point := ⟨subVec⟩
instance : HSub Point Point Vector3 := ⟨subPoint⟩

end Point

/-- Linear-light RGB colour (src/scene.rs `Color`). -/
structure Color where
  red : ℝ
  green : ℝ
  blue : ℝ

/-- A display-space RGBA byte pixel (the `Rgba<u8>` values the code produces). -/
structure Rgba where
  r : ℕ
  g : ℕ
  b : ℕ
  a : ℕ
deriving DecidableEq

/-- src/scene.rs `const GAMMA: f32 = 2.2`. -/
def GAMMA : ℝ := 2.2

/-- src/scene.rs `gamma_encode`: `linear.powf(1.0 / GAMMA)`. -/
def gamma_encode (linear : ℝ) : ℝ := linear ^ ((1 : ℝ) / GAMMA)

/-- Rust's saturating `f32 as u8` cast: truncate toward zero, clamp to
[0, 255].  (`Nat.floor` of a negative real is 0, matching the low clamp.) -/
def asU8 (v : ℝ) : ℕ := min 255 ⌊v⌋₊

namespace Color

def add (c d : Color) : Color := ⟨c.red + d.red, c.green + d.green, c.blue + d.blue⟩

def mul (c d : Color) : Color := ⟨c.red * d.red, c.green * d.green, c.blue * d.blue⟩

def smul (r : ℝ) (c : Color) : Color := ⟨c.red * r, c.green * r, c.blue * r⟩

instance : Add Color := ⟨add⟩
instance : Mul Color := ⟨mul⟩
instance : HMul Color ℝ Color := ⟨fun c r => smul r c⟩
instance : HMul ℝ Color Color := ⟨fun r c => smul r c⟩

/-- src/scene.rs `Color::to_rgba`. -/
def to_rgba (c : Color) : Rgba :=
  ⟨asU8 (gamma_encode c.red * 255),
   asU8 (gamma_encode c.green * 255),
   asU8 (gamma_encode c.blue * 255),
   255⟩

/-- src/scene.rs `Color::from_rgba`. -/
def from_rgba (p : Rgba) : Color := ⟨(p.r : ℝ) / 255, (p.g : ℝ) / 255, (p.b : ℝ) / 255⟩

/-- src/scene.rs `Color::clamp`: each channel `.min(1.0).max(0.0)`. -/
def clamp (c : Color) : Color :=
  ⟨max (min c.red 1) 0, max (min c.green 1) 0, max (min c.blue 1) 0⟩

end Color

/-- src/scene.rs `TextureCoords`. -/
structure TextureCoords where
  x : ℝ
  y : ℝ

/-- src/scene.rs `SurfaceType`. -/
structure SurfaceType where
  diffuse_albedo : ℝ
  reflect_ratio : ℝ
  refractive_index : ℝ

/-- A loaded texture image (the `DynamicImage` payload of
`ColorType::Texture`): dimensions plus an indexed pixel lookup. -/
structure Texture where
  width : ℕ
  height : ℕ
  get_pixel : ℕ → ℕ → Rgba

/-- Truncation toward zero of a real, as Rust float-to-int casts do. -/
def rtrunc (v : ℝ) : ℤ := if 0 ≤ v then ⌊v⌋ else ⌈v⌉

/-- Rust's saturating `f32 as i32` cast. -/
def real_to_i32 (v : ℝ) : ℤ := max (-(2 ^ 31)) (min (2 ^ 31 - 1) (rtrunc v))

/-- Rust's wrapping `u32 as i32` cast. -/
def i32_of_u32 (n : ℕ) : ℤ := ((n : ℤ) + 2 ^ 31) % 2 ^ 32 - 2 ^ 31

/-- src/scene.rs `wrap`: `%` is Rust's truncated remainder (`Int.tmod`). -/
def wrap (val : ℝ) (bound : ℕ) : ℕ :=
  let signed_bound : ℤ := i32_of_u32 bound
  let float_coord : ℝ := val * (bound : ℝ)
  let wrapped_coord : ℤ := (real_to_i32 float_coord).tmod signed_bound
  if wrapped_coord < 0 then (wrapped_coord + signed_bound).toNat else wrapped_coord.toNat

/-- src/scene.rs `ColorType`. -/
inductive ColorType where
  | color : Color → ColorType
  | texture : Texture → ColorType

/-- src/scene.rs `ColorType::color`. -/
def ColorType.color' : ColorType → TextureCoords → Color
  | ColorType.color c, _ => ⟨c.red, c.green, c.blue⟩
  | ColorType.texture tex, coords =>
      Color.from_rgba (tex.get_pixel (wrap coords.x tex.width) (wrap coords.y tex.height))

/-- src/scene.rs `Material`. -/
structure Material where
  color : ColorType
  surface_type : SurfaceType

/-- src/scene.rs `Material::color`. -/
def Material.color' (m : Material) (coords : TextureCoords) : Color :=
  m.color.color' coords

/-- src/scene.rs `Sphere` (with the cached `radius_sq` field). -/
structure Sphere where
  center : Point
  radius : ℝ
  radius_sq : ℝ
  material : Material

/-- src/scene.rs `Plane`. -/
structure Plane where
  center : Point
  normal : Vector3
  material : Material

/-- src/scene.rs `DirectLight`. -/
structure DirectLight where
  direction : Vector3
  color : Color
  intensity : ℝ

/-- src/scene.rs `SphericalLight`. -/
structure SphericalLight where
  position : Point
  color : Color
  intensity : ℝ

/-- src/scene.rs `Light`. -/
inductive Light where
  | direct : DirectLight → Light
  | spherical : SphericalLight → Light

namespace Light

/-- src/scene.rs `Light::distance`: `f64::INFINITY` for a directional light
is modelled as `⊤ : EReal`, the distance to a spherical light as the
(finite) real it is. -/
def distance : Light → Point → EReal
  | direct _, _ => ⊤
  | spherical l, hit_point => ((l.position - hit_point).length : ℝ)

/-- src/scene.rs `Light::intensity`. -/
def intensity : Light → Point → ℝ
  | direct l, _ => l.intensity
  | spherical l, hit_point =>
      l.intensity / (4 * Real.pi * (l.position - hit_point).norm)

/-- src/scene.rs `Light::direction`. -/
def direction : Light → Point → Vector3
  | direct l, _ => -l.direction.normalize
  | spherical l, hit_point => (l.position - hit_point).normalize

/-- src/scene.rs `Light::color`. -/
def color : Light → Color
  | direct l => l.color
  | spherical l => l.color

end Light

/-- The closed sum of the `Intersectable` implementations in src/rendering.rs
(`Sphere` and `Plane`); the source uses boxed trait objects over exactly
these two shapes. -/
inductive Object where
  | sphere : Sphere → Object
  | plane : Plane → Object

/-- src/scene.rs `Scene`. -/
structure Scene where
  width : ℕ
  height : ℕ
  fov : ℝ
  objects : List Object
  lights : List Light
  bg_color : Color

/-- src/rendering.rs `Ray`. -/
structure Ray where
  origin : Point
  direction : Vector3

namespace Ray

/-- src/rendering.rs `Ray::create_prime`.  (The source asserts
`scene.width > scene.height` before computing; theorems that talk about
whole renders carry that as a hypothesis.) -/
def create_prime (x y : ℕ) (scene : Scene) : Ray :=
  let aspect_ratio : ℝ := (scene.width : ℝ) / (scene.height : ℝ)
  let fov_adjustment : ℝ := Real.tan (scene.fov * Real.pi / 180 / 2)
  let sensor_x : ℝ := ((((x : ℝ) + 0.5) / (scene.width : ℝ)) * 2 - 1) * aspect_ratio * fov_adjustment
  let sensor_y : ℝ := (1 - (((y : ℝ) + 0.5) / (scene.height : ℝ)) * 2) * fov_adjustment
  ⟨⟨0, 0, 0⟩, (⟨sensor_x, sensor_y, -1⟩ : Vector3).normalize⟩

/-- src/rendering.rs `Ray::reflect_direction`. -/
def reflect_direction (ray : Ray) (normal : Vector3) : Vector3 :=
  let n := normal.normalize
  (ray.direction - (2 * ray.direction.dot n) * n).normalize

/-- src/rendering.rs `Ray::refract`. -/
def refract (ray : Ray) (normal : Vector3) (ior_from ior_to : ℝ) : Option Vector3 :=
  let n0 := normal.normalize
  let cosi0 := n0.dot ray.direction
  let n := if cosi0 < 0 then n0 else -n0
  let cosi := if cosi0 < 0 then -cosi0 else cosi0
  let iorF := if cosi0 < 0 then ior_from else ior_to
  let iorT := if cosi0 < 0 then ior_to else ior_from
  let eta := iorF / iorT
  let k := 1 - eta * eta * (1 - cosi * cosi)
  if k < 0 then none
  else some (eta * ray.direction + (eta * cosi - Real.sqrt k) * n)

/-- The Snell discriminant `k = 1 - eta^2 * (1 - cos^2)` that
`Ray::refract` computes (after its index-swapping step). -/
def refract_discriminant (ray : Ray) (normal : Vector3) (ior_from ior_to : ℝ) : ℝ :=
  let n0 := normal.normalize
  let cosi0 := n0.dot ray.direction
  let cosi := if cosi0 < 0 then -cosi0 else cosi0
  let iorF := if cosi0 < 0 then ior_from else ior_to
  let iorT := if cosi0 < 0 then ior_to else ior_from
  let eta := iorF / iorT
  1 - eta * eta * (1 - cosi * cosi)

/-- src/rendering.rs `Ray::fresnel`. -/
def fresnel (ray : Ray) (normal : Vector3) (ior_from ior_to : ℝ) : ℝ :=
  let cosi0 := max (min (ray.direction.dot normal) 1) (-1)
  let iorF := if cosi0 > 0 then ior_to else ior_from
  let iorT := if cosi0 > 0 then ior_from else ior_to
  let eta := iorF / iorT
  let sint := eta * Real.sqrt (max (1 - cosi0 * cosi0) 0)
  if sint ≥ 1 then 1
  else
    let cost := Real.sqrt (max (1 - sint * sint) 0)
    let cosi := |cosi0|
    let r1 := (iorT * cosi - iorF * cost) / (iorT * cosi + iorF * cost)
    let r2 := (iorF * cost - iorT * cosi) / (iorF * cost + iorF * cosi)
    (r1 * r1 + r2 * r2) / 2

end Ray

/-- src/rendering.rs `impl Intersectable for Sphere`, `fn intersect`. -/
def Sphere.intersect (s : Sphere) (ray : Ray) : Option ℝ :=
  let l : Vector3 := s.center - ray.origin
  let adj := l.dot ray.direction
  let d2 := l.dot l - adj * adj
  if d2 > s.radius_sq then none
  else
    let d1 := Real.sqrt (s.radius_sq - d2)
    let t0 := adj - d1
    let t1 := adj + d1
    if t0 < 0 ∧ t1 < 0 then none
    else if t0 < 0 then some t1
    else if t1 < 0 then some t0
    else some (if t0 < t1 then t0 else t1)

/-- src/rendering.rs `impl Intersectable for Sphere`, `fn surface_normal`. -/
def Sphere.surface_normal (s : Sphere) (hit_point : Point) : Vector3 :=
  (hit_point - s.center).normalize

/-- `f64::atan2(y, x)`, the argument of the complex number `x + y*I`. -/
def atan2 (y x : ℝ) : ℝ := Complex.arg ⟨x, y⟩

/-- src/rendering.rs `impl Intersectable for Sphere`, `fn texture_coords`. -/
def Sphere.texture_coords (s : Sphere) (point : Point) : TextureCoords :=
  let vec_to_point := point - s.center
  ⟨(1 + atan2 vec_to_point.z vec_to_point.x / Real.pi) * 0.5,
   Real.arccos (vec_to_point.y / s.radius) / Real.pi⟩

/-- src/rendering.rs `impl Intersectable for Plane`, `fn intersect`. -/
def Plane.intersect (p : Plane) (ray : Ray) : Option ℝ :=
  let normal := p.normal
  let denom := normal.dot ray.direction
  if denom > 1e-6 then
    let v := p.center - ray.origin
    let distance := v.dot normal / denom
    if distance ≥ 0 then some distance else none
  else none

/-- src/rendering.rs `impl Intersectable for Plane`, `fn surface_normal`. -/
def Plane.surface_normal (p : Plane) (_hit_point : Point) : Vector3 := -p.normal

/-- src/rendering.rs `impl Intersectable for Plane`, `fn texture_coords`. -/
def Plane.texture_coords (p : Plane) (point : Point) : TextureCoords :=
  let formard_vec : Vector3 := ⟨0, 0, 1⟩
  let up_vec : Vector3 := ⟨0, 1, 0⟩
  let x_axis0 := p.normal.cross formard_vec
  let x_axis := if x_axis0.length = 0 then p.normal.cross up_vec else x_axis0
  let y_axis := p.normal.cross x_axis
  let vec_to_point := point - p.center
  ⟨vec_to_point.dot x_axis, vec_to_point.dot y_axis⟩

namespace Object

/-- Dispatch of `Intersectable::intersect` over the two shapes. -/
def intersect : Object → Ray → Option ℝ
  | sphere s, ray => s.intersect ray
  | plane p, ray => p.intersect ray

/-- Dispatch of `Intersectable::surface_normal`. -/
def surface_normal : Object → Point → Vector3
  | sphere s, pt => s.surface_normal pt
  | plane p, pt => p.surface_normal pt

/-- Dispatch of `Intersectable::material`. -/
def material : Object → Material
  | sphere s => s.material
  | plane p => p.material

/-- Dispatch of `Intersectable::texture_coords`. -/
def texture_coords : Object → Point → TextureCoords
  | sphere s, pt => s.texture_coords pt
  | plane p, pt => p.texture_coords pt

end Object

/-- src/rendering.rs `Intersection` (the object reference becomes a value). -/
structure Intersection where
  distance : ℝ
  obj : Object

/-- One step of Rust's `Iterator::min_by` fold: keep the accumulator unless
the new element is strictly smaller (so the first among equals wins). -/
def min_step (acc : Option Intersection) (i : Intersection) : Option Intersection :=
  match acc with
  | none => some i
  | some a => if i.distance < a.distance then some i else some a

/-- Rust's `Iterator::min_by` on distances. -/
def min_by_dist (l : List Intersection) : Option Intersection :=
  l.foldl min_step none

/-- The candidate hits `Scene::trace` builds with `filter_map`. -/
def Scene.hits (scene : Scene) (ray : Ray) : List Intersection :=
  scene.objects.filterMap fun o => (o.intersect ray).map fun d => ⟨d, o⟩

/-- src/rendering.rs `Scene::trace`. -/
def Scene.trace (scene : Scene) (ray : Ray) : Option Intersection :=
  min_by_dist (scene.hits ray)
/-- The body of the per-light loop in `get_color` (src/rendering.rs lines
48-71): shadow test, intensity choice, diffuse weighting. -/
def light_contribution (scene : Scene) (material : Material)
    (texture_coords : TextureCoords) (hit_point : Point)
    (surface_normal : Vector3) (light : Light) : Color :=
  let light_reflected := material.surface_type.diffuse_albedo / Real.pi
  let direction_to_light := light.direction hit_point
  let shadow_ray : Ray := ⟨hit_point + surface_normal, direction_to_light⟩
  let shadow_intersection := scene.trace shadow_ray
  let light_intensity :=
    match shadow_intersection with
    | none => light.intensity hit_point
    | some i =>
        if (i.distance : EReal) > light.distance hit_point then light.intensity hit_point
        else 0
  let light_power := max (surface_normal.dot direction_to_light) 0 * light_intensity
  let light_color := light.color * light_power * light_reflected
  material.color' texture_coords * light_color

/-- The accumulated direct-lighting term of `get_color` (the `for light in
&scene.lights` loop, starting from the zero colour). -/
def direct_term (scene : Scene) (material : Material)
    (texture_coords : TextureCoords) (hit_point : Point)
    (surface_normal : Vector3) : Color :=
  scene.lights.foldl
    (fun color light =>
      color + light_contribution scene material texture_coords hit_point surface_normal light)
    ⟨0, 0, 0⟩

/-- src/rendering.rs `get_color`: recursive shading with depth cap 5. -/
def get_color (scene : Scene) (ray : Ray) (depth : ℕ) : Color :=
  if h5 : depth > 5 then scene.bg_color
  else
    match scene.trace ray with
    | none => scene.bg_color
    | some v =>
      let material := v.obj.material
      let hit_point := ray.origin + ray.direction * v.distance
      let surface_normal := v.obj.surface_normal hit_point
      let texture_coords := v.obj.texture_coords hit_point
      let color0 : Color :=
        if material.surface_type.diffuse_albedo > 0 then
          direct_term scene material texture_coords hit_point surface_normal
        else ⟨0, 0, 0⟩
      let color1 : Color :=
        if material.surface_type.refractive_index > 0 then
          let coeff_r := ray.fresnel surface_normal 1 material.surface_type.refractive_index
          let refraction_color : Color :=
            if coeff_r < 1 then
              match ray.refract surface_normal 1 material.surface_type.refractive_index with
              | some dir =>
                  get_color scene
                    ⟨if ray.direction.dot surface_normal < 0 then hit_point + surface_normal
                      else hit_point - surface_normal, dir⟩ (depth + 1)
              | none => ⟨0, 0, 0⟩
            else ⟨0, 0, 0⟩
          let reflection_color :=
            get_color scene ⟨hit_point + surface_normal, ray.reflect_direction surface_normal⟩
              (depth + 1)
          color0 + reflection_color * coeff_r + refraction_color * (1 - coeff_r)
        else if material.surface_type.reflect_ratio > 0 then
          color0 + material.surface_type.reflect_ratio *
            get_color scene ⟨hit_point + surface_normal, ray.reflect_direction surface_normal⟩
              (depth + 1)
        else color0
      color1.clamp
termination_by 6 - depth
decreasing_by all_goals (simp_wf; omega)

/-- The black, fully opaque pixel value a fresh `new_rgb8` image reads back. -/
def blackPx : Rgba := ⟨0, 0, 0, 255⟩

/-- An output image: dimensions plus pixel lookup (out-of-bounds reads give
the background byte value, so images built the same way are equal as
structures). -/
structure RImage where
  width : ℕ
  height : ℕ
  pix : ℕ → ℕ → Rgba

/-- `DynamicImage::new_rgb8`: a zero-filled image. -/
def new_rgb8 (w h : ℕ) : RImage := ⟨w, h, fun _ _ => blackPx⟩

/-- src/rendering.rs `render`: one column stripe, pixel `(x, y)` of the
stripe holding the shade of global column `start_width + x`. -/
def render (scene : Scene) (start_width end_width : ℕ) : RImage :=
  ⟨end_width - start_width, scene.height, fun x y =>
    if x < end_width - start_width ∧ y < scene.height then
      (get_color scene (Ray.create_prime (start_width + x) y scene) 0).to_rgba
    else blackPx⟩

/-- image crate `copy_from`: overlay `src` on `dst` at offset `(ox, oy)`.
(The bounds check that makes `copy_from` return `false` is part of the
fatal-run guard in `render_in_threads`.) -/
def RImage.copy_from (dst src : RImage) (ox oy : ℕ) : RImage :=
  ⟨dst.width, dst.height, fun x y =>
    if ox ≤ x ∧ x - ox < src.width ∧ oy ≤ y ∧ y - oy < src.height then
      src.pix (x - ox) (y - oy)
    else dst.pix x y⟩

/-- The stripe width of src/rendering.rs `render_in_threads`. -/
def stripe_size (w n : ℕ) : ℕ := if w % n = 0 then w / n else w / n + 1

/-- Worker `i`'s `start_width`. -/
def stripe_start (w n i : ℕ) : ℕ := i * stripe_size w n

/-- Worker `i`'s `end_width` (clipped to the image width). -/
def stripe_end (w n i : ℕ) : ℕ := min ((i + 1) * stripe_size w n) w

/-- src/rendering.rs `render_in_threads`.  `none` models the fatal runs:
`threads_num = 0` panics on `width % threads_num`, and a worker whose stripe
start exceeds its stripe end panics on the `u32` subtraction
`end_width - start_width`; a panicking worker aborts the whole render. -/
def render_in_threads (scene : Scene) (threads_num : ℕ) : Option RImage :=
  if 1 ≤ threads_num ∧
      ∀ i < threads_num,
        stripe_start scene.width threads_num i ≤ stripe_end scene.width threads_num i then
    some ((List.range threads_num).foldl
      (fun image i =>
        image.copy_from
          (render scene (stripe_start scene.width threads_num i)
            (stripe_end scene.width threads_num i))
          (stripe_start scene.width threads_num i) 0)
      (new_rgb8 scene.width scene.height))
  else none

/-! Concrete inputs used to exercise the theorems below. -/

/-- A plain white diffuse material. -/
def ex_mat_diffuse : Material := ⟨ColorType.color ⟨1, 1, 1⟩, ⟨1, 0, 0⟩⟩

/-- A purely refractive material with refractive index 1/2. -/
def ex_mat_glass : Material := ⟨ColorType.color ⟨1, 1, 1⟩, ⟨0, 0, 1/2⟩⟩

/-- A scene with no objects and no lights (background only), 10×5. -/
def ex_scene_nil : Scene := ⟨10, 5, 90, [], [], ⟨0, 0, 0⟩⟩

/-- A glass floor plane through the origin, facing up. -/
def ex_plane_glass : Plane := ⟨⟨0, 0, 0⟩, ⟨0, -1, 0⟩, ex_mat_glass⟩

/-- Scene holding only the glass floor. -/
def ex_scene_glass : Scene := ⟨10, 5, 90, [Object.plane ex_plane_glass], [], ⟨0, 0, 0⟩⟩

/-- A grazing ray that totally internally reflects on the glass floor. -/
def ex_ray_tir : Ray := ⟨⟨0, 1, 0⟩, ⟨1, -1/2, 0⟩⟩

/-- A downward-facing plane at height 5, used as a shadow occluder. -/
def ex_plane_occluder : Plane := ⟨⟨0, 5, 0⟩, ⟨0, 1, 0⟩, ex_mat_diffuse⟩

/-- A white spherical light at height 4 with intensity 1. -/
def ex_light : Light := Light.spherical ⟨⟨0, 4, 0⟩, ⟨1, 1, 1⟩, 1⟩

/-- Scene holding only the occluder plane and the spherical light; a shadow
ray from the origin's hit point meets the occluder at distance exactly equal
to the light distance. -/
def ex_scene_shadow : Scene := ⟨10, 5, 90, [Object.plane ex_plane_occluder], [ex_light], ⟨0, 0, 0⟩⟩

/-- Two back-to-front planes facing the camera at depths 2 and 4. -/
def ex_plane_near : Plane := ⟨⟨0, 0, -2⟩, ⟨0, 0, -1⟩, ex_mat_diffuse⟩

def ex_plane_far : Plane := ⟨⟨0, 0, -4⟩, ⟨0, 0, -1⟩, ex_mat_diffuse⟩

def ex_scene_two : Scene :=
  ⟨10, 5, 90, [Object.plane ex_plane_near, Object.plane ex_plane_far], [], ⟨0, 0, 0⟩⟩

/-- Straight down the camera axis. -/
def ex_ray_axis : Ray := ⟨⟨0, 0, 0⟩, ⟨0, 0, -1⟩⟩

/-- The unit sphere centred 3 in front of the camera
(`radius_sq` cached as the source constructor does). -/
def ex_sphere : Sphere := ⟨⟨0, 0, -3⟩, 1, 1, ex_mat_diffuse⟩

/-- A linear colour whose red channel gamma-encodes to exactly 0.5, so that
0.5 * 255 = 127.5 separates truncation (127) from rounding (128). -/
def ex_col_half : Color := ⟨(2 : ℝ) ^ ((-11 : ℝ) / 5), 0, 0⟩

/-! Componentwise unfolding lemmas for the arithmetic instances. -/

theorem Vector3.vadd_def (a b : Vector3) :
    a + b = (⟨a.x + b.x, a.y + b.y, a.z + b.z⟩ : Vector3) := rfl

theorem Vector3.vsub_def (a b : Vector3) :
    a - b = (⟨a.x - b.x, a.y - b.y, a.z - b.z⟩ : Vector3) := rfl

theorem Vector3.neg_def (a : Vector3) : -a = (⟨-a.x, -a.y, -a.z⟩ : Vector3) := rfl

theorem Vector3.vsmul_def (r : ℝ) (a : Vector3) :
    r * a = (⟨r * a.x, r * a.y, r * a.z⟩ : Vector3) := rfl

theorem Vector3.vsmul_def' (a : Vector3) (r : ℝ) :
    a * r = (⟨r * a.x, r * a.y, r * a.z⟩ : Vector3) := rfl

theorem Point.sub_def (p q : Point) :
    p - q = (⟨p.x - q.x, p.y - q.y, p.z - q.z⟩ : Vector3) := rfl

theorem Point.add_vec_def (p : Point) (v : Vector3) :
    p + v = (⟨p.x + v.x, p.y + v.y, p.z + v.z⟩ : Point) := rfl

theorem Point.sub_vec_def (p : Point) (v : Vector3) :
    p - v = (⟨p.x - v.x, p.y - v.y, p.z - v.z⟩ : Point) := rfl

theorem Color.add_def (c d : Color) :
    c + d = (⟨c.red + d.red, c.green + d.green, c.blue + d.blue⟩ : Color) := rfl

theorem Color.mul_def (c d : Color) :
    c * d = (⟨c.red * d.red, c.green * d.green, c.blue * d.blue⟩ : Color) := rfl

theorem Color.smul_def (r : ℝ) (c : Color) :
    r * c = (⟨c.red * r, c.green * r, c.blue * r⟩ : Color) := rfl

theorem Color.smul_def' (c : Color) (r : ℝ) :
    c * r = (⟨c.red * r, c.green * r, c.blue * r⟩ : Color) := rfl

theorem Color.add_zero' (c : Color) : c + (⟨0, 0, 0⟩ : Color) = c := by
  cases c; simp [Color.add_def]

theorem Color.zero_add' (c : Color) : (⟨0, 0, 0⟩ : Color) + c = c := by
  cases c; simp [Color.add_def]

theorem Color.mul_zero' (c : Color) : c * (⟨0, 0, 0⟩ : Color) = (⟨0, 0, 0⟩ : Color) := by
  cases c; simp [Color.mul_def]

theorem Color.zero_smul' (r : ℝ) : (⟨0, 0, 0⟩ : Color) * r = (⟨0, 0, 0⟩ : Color) := by
  simp [Color.smul_def']

/-- C6: recursive shading always terminates at the depth cap: as soon as the
depth argument exceeds `MAX_DEPTH = 5`, `get_color` returns the scene
background colour without recursing (the function itself is total by
construction, so every scene — mutually reflective mirrors included —
receives a finite colour). -/
theorem C6_depth_cap (scene : Scene) (ray : Ray) (depth : ℕ) (h : 5 < depth) :
    get_color scene ray depth = scene.bg_color := by
  rw [get_color]
  simp [h]

/-- Witness for C6 at depth 6 on a concrete scene and ray. -/
theorem C6_depth_cap_witness :
    5 < 6 ∧ get_color ex_scene_nil ex_ray_axis 6 = ex_scene_nil.bg_color :=
  ⟨by norm_num, C6_depth_cap ex_scene_nil ex_ray_axis 6 (by norm_num)⟩

/-- C4: `Sphere::intersect` follows the two-root policy of the spec: no hit
when the perpendicular squared distance `d2` exceeds `radius_sq`; otherwise,
with `t0 = adj - sqrt(radius_sq - d2)` and `t1 = adj + sqrt(radius_sq - d2)`,
no hit when both roots are negative, the non-negative root when exactly one
is negative, and the smaller root when neither is. -/
theorem C4_sphere_two_root_policy (s : Sphere) (ray : Ray) (adj d2 t0 t1 : ℝ)
    (hadj : adj = (s.center - ray.origin).dot ray.direction)
    (hd2 : d2 = (s.center - ray.origin).dot (s.center - ray.origin) - adj * adj)
    (ht0 : t0 = adj - Real.sqrt (s.radius_sq - d2))
    (ht1 : t1 = adj + Real.sqrt (s.radius_sq - d2)) :
    (d2 > s.radius_sq → s.intersect ray = none) ∧
    (¬ d2 > s.radius_sq → t0 < 0 → t1 < 0 → s.intersect ray = none) ∧
    (¬ d2 > s.radius_sq → t0 < 0 → 0 ≤ t1 → s.intersect ray = some t1) ∧
    (¬ d2 > s.radius_sq → 0 ≤ t0 → t1 < 0 → s.intersect ray = some t0) ∧
    (¬ d2 > s.radius_sq → 0 ≤ t0 → 0 ≤ t1 → s.intersect ray = some (min t0 t1)) := by
  subst hadj
  subst hd2
  subst ht0
  subst ht1
  unfold Sphere.intersect
  refine ⟨fun h1 => ?_, fun h1 h2 h3 => ?_, fun h1 h2 h3 => ?_,
    fun h1 h2 h3 => ?_, fun h1 h2 h3 => ?_⟩
  · simp [h1]
  · simp only [if_neg h1]
    rw [if_pos ⟨h2, h3⟩]
  · simp only [if_neg h1]
    rw [if_neg (by intro hc; linarith [hc.2]), if_pos h2]
  · simp only [if_neg h1]
    rw [if_neg (by intro hc; linarith [hc.1]), if_neg (by linarith), if_pos h3]
  · simp only [if_neg h1]
    rw [if_neg (by intro hc; linarith [hc.1]), if_neg (by linarith), if_neg (by linarith)]
    congr 1
    split_ifs with hlt
    · exact (min_eq_left (le_of_lt hlt)).symm
    · exact (min_eq_right (not_lt.mp hlt)).symm

/-- Witness for C4: the axis ray hits the unit sphere 3 units ahead at the
near root, distance 2. -/
theorem C4_sphere_two_root_policy_witness :
    ex_sphere.intersect ex_ray_axis = some 2 := by
  have h :=
    (C4_sphere_two_root_policy ex_sphere ex_ray_axis 3 0 2 4
      (by norm_num [ex_sphere, ex_ray_axis, Point.sub_def, Vector3.dot])
      (by norm_num [ex_sphere, ex_ray_axis, Point.sub_def, Vector3.dot])
      (by norm_num [ex_sphere, Real.sqrt_one])
      (by norm_num [ex_sphere, Real.sqrt_one])).2.2.2.2
      (by norm_num [ex_sphere]) (by norm_num) (by norm_num)
  rw [h, min_eq_left (by norm_num : (2:ℝ) ≤ 4)]

/-! Properties of the `min_by` fold used by `Scene::trace`. -/

theorem foldl_min_step_some (l : List Intersection) :
    ∀ a : Intersection,
      ∃ b, l.foldl min_step (some a) = some b ∧ (b = a ∨ b ∈ l) ∧
        b.distance ≤ a.distance ∧ ∀ j ∈ l, b.distance ≤ j.distance := by
  induction l with
  | nil =>
      intro a
      exact ⟨a, rfl, Or.inl rfl, le_refl _, by simp⟩
  | cons x l ih =>
      intro a
      by_cases hx : x.distance < a.distance
      · obtain ⟨b, hb1, hb2, hb3, hb4⟩ := ih x
        refine ⟨b, by simpa [min_step, hx] using hb1, ?_, by linarith, ?_⟩
        · rcases hb2 with h | h
          · exact Or.inr (by simp [h])
          · exact Or.inr (by simp [h])
        · intro j hj
          rcases List.mem_cons.mp hj with h | h
          · subst h; exact hb3
          · exact hb4 j h
      · obtain ⟨b, hb1, hb2, hb3, hb4⟩ := ih a
        refine ⟨b, by simpa [min_step, hx] using hb1, ?_, hb3, ?_⟩
        · rcases hb2 with h | h
          · exact Or.inl h
          · exact Or.inr (by simp [h])
        · intro j hj
          rcases List.mem_cons.mp hj with h | h
          · subst h; linarith [not_lt.mp hx]
          · exact hb4 j h

theorem min_by_dist_eq_none_iff (l : List Intersection) :
    min_by_dist l = none ↔ l = [] := by
  cases l with
  | nil => simp [min_by_dist]
  | cons x l =>
      obtain ⟨b, hb1, -, -, -⟩ := foldl_min_step_some l x
      simp only [min_by_dist, List.foldl_cons, min_step]
      simp [hb1]

theorem min_by_dist_spec (l : List Intersection) (i : Intersection)
    (h : min_by_dist l = some i) :
    i ∈ l ∧ ∀ j ∈ l, i.distance ≤ j.distance := by
  cases l with
  | nil => simp [min_by_dist] at h
  | cons x l =>
      obtain ⟨b, hb1, hb2, hb3, hb4⟩ := foldl_min_step_some l x
      have hb : b = i := by
        have : min_by_dist (x :: l) = some b := by
          simp only [min_by_dist, List.foldl_cons, min_step]
          exact hb1
        rw [h] at this
        exact (Option.some.inj this).symm
      subst hb
      constructor
      · rcases hb2 with h' | h'
        · simp [h']
        · simp [h']
      · intro j hj
        rcases List.mem_cons.mp hj with h' | h'
        · subst h'; exact hb3
        · exact hb4 j h'

/-- Membership in the candidate list `Scene::trace` folds over. -/
theorem mem_hits_iff (scene : Scene) (ray : Ray) (i : Intersection) :
    i ∈ scene.hits ray ↔
      ∃ o ∈ scene.objects, o.intersect ray = some i.distance ∧ i.obj = o := by
  simp only [Scene.hits, List.mem_filterMap, Option.map_eq_some']
  constructor
  · rintro ⟨o, ho, d, hd, rfl⟩
    exact ⟨o, ho, hd, rfl⟩
  · rintro ⟨o, ho, hd, hobj⟩
    refine ⟨o, ho, i.distance, hd, ?_⟩
    cases i
    simp_all

/-- C5: `Scene::trace` evaluates `intersect` on every listed primitive,
discards the non-hits, returns an `Intersection` achieving the minimum hit
distance, and returns `none` exactly when no primitive reports a hit. -/
theorem C5_trace_is_min (scene : Scene) (ray : Ray) :
    (scene.trace ray = none ↔ ∀ o ∈ scene.objects, o.intersect ray = none) ∧
    (∀ i, scene.trace ray = some i →
      (∃ o ∈ scene.objects, o.intersect ray = some i.distance ∧ i.obj = o) ∧
      ∀ o ∈ scene.objects, ∀ d, o.intersect ray = some d → i.distance ≤ d) := by
  constructor
  · rw [Scene.trace, min_by_dist_eq_none_iff, Scene.hits, List.filterMap_eq_nil_iff]
    constructor
    · intro h o ho
      have := h o ho
      simpa using this
    · intro h o ho
      simp [h o ho]
  · intro i hi
    obtain ⟨hmem, hmin⟩ := min_by_dist_spec _ _ hi
    refine ⟨(mem_hits_iff scene ray i).mp hmem, ?_⟩
    intro o ho d hd
    have : (⟨d, o⟩ : Intersection) ∈ scene.hits ray := by
      rw [mem_hits_iff]
      exact ⟨o, ho, hd, rfl⟩
    exact hmin _ this

/-- The near plane of the two-plane scene is hit at distance 2. -/
theorem ex_near_eval :
    Object.intersect (Object.plane ex_plane_near) ex_ray_axis = some 2 := by
  simp only [Object.intersect, Plane.intersect, ex_plane_near, ex_ray_axis,
    Point.sub_def, Vector3.dot]
  norm_num

/-- The far plane of the two-plane scene is hit at distance 4. -/
theorem ex_far_eval :
    Object.intersect (Object.plane ex_plane_far) ex_ray_axis = some 4 := by
  simp only [Object.intersect, Plane.intersect, ex_plane_far, ex_ray_axis,
    Point.sub_def, Vector3.dot]
  norm_num

/-- Tracing the two-plane scene yields the nearer hit. -/
theorem ex_trace_two_eval :
    ex_scene_two.trace ex_ray_axis = some ⟨2, Object.plane ex_plane_near⟩ := by
  simp only [Scene.trace, Scene.hits, ex_scene_two]
  simp only [List.filterMap_cons, ex_near_eval, ex_far_eval, List.filterMap_nil,
    Option.map_some']
  simp only [min_by_dist, List.foldl_cons, List.foldl_nil, min_step]
  norm_num

/-- Witness for C5 on a concrete two-plane scene: the trace result is the
nearer plane at distance 2, and 2 is a lower bound on every reported hit. -/
theorem C5_trace_is_min_witness :
    ex_scene_two.trace ex_ray_axis = some ⟨2, Object.plane ex_plane_near⟩ ∧
    ∀ o ∈ ex_scene_two.objects, ∀ d, o.intersect ex_ray_axis = some d → (2 : ℝ) ≤ d := by
  refine ⟨ex_trace_two_eval, ?_⟩
  exact ((C5_trace_is_min ex_scene_two ex_ray_axis).2 ⟨2, Object.plane ex_plane_near⟩
    ex_trace_two_eval).2

/-- Every hit distance a sphere reports is non-negative. -/
theorem sphere_intersect_nonneg (s : Sphere) (ray : Ray) (d : ℝ)
    (h : s.intersect ray = some d) : 0 ≤ d := by
  simp only [Sphere.intersect] at h
  split_ifs at h with h1 h2 h3 h4 h5 <;>
    first
      | exact Option.noConfusion h
      | (push_neg at h2 h3 h4
         obtain rfl := Option.some.inj h
         first
           | exact h2 h3
           | linarith)
      | (push_neg at h2 h3
         obtain rfl := Option.some.inj h
         first
           | exact h2 h3
           | linarith)

/-- Every hit distance a plane reports is non-negative. -/
theorem plane_intersect_nonneg (p : Plane) (ray : Ray) (d : ℝ)
    (h : p.intersect ray = some d) : 0 ≤ d := by
  simp only [Plane.intersect] at h
  split_ifs at h with h1 h2 <;>
    first
      | exact Option.noConfusion h
      | (obtain rfl := Option.some.inj h
         exact h2)

/-- C10: every intersection distance is non-negative: `Sphere::intersect`
and `Plane::intersect` only ever return non-negative distances, hence the
distance of every `Intersection` produced by `Scene::trace` is
non-negative. -/
theorem C10_distances_nonneg :
    (∀ (s : Sphere) (ray : Ray) (d : ℝ), s.intersect ray = some d → 0 ≤ d) ∧
    (∀ (p : Plane) (ray : Ray) (d : ℝ), p.intersect ray = some d → 0 ≤ d) ∧
    (∀ (scene : Scene) (ray : Ray) (i : Intersection),
      scene.trace ray = some i → 0 ≤ i.distance) := by
  refine ⟨sphere_intersect_nonneg, plane_intersect_nonneg, ?_⟩
  intro scene ray i hi
  obtain ⟨hmem, -⟩ := min_by_dist_spec _ _ hi
  obtain ⟨o, -, ho, -⟩ := (mem_hits_iff scene ray i).mp hmem
  cases o with
  | sphere s => exact sphere_intersect_nonneg s ray i.distance ho
  | plane p => exact plane_intersect_nonneg p ray i.distance ho

/-- Witness for C10: a concrete plane hit at distance 2 is non-negative. -/
theorem C10_distances_nonneg_witness :
    ex_plane_near.intersect ex_ray_axis = some 2 ∧ (0 : ℝ) ≤ 2 := by
  have heval : ex_plane_near.intersect ex_ray_axis = some 2 := by
    simp only [Plane.intersect, ex_plane_near, ex_ray_axis, Point.sub_def, Vector3.dot]
    norm_num
  exact ⟨heval, C10_distances_nonneg.2.1 ex_plane_near ex_ray_axis 2 heval⟩

/-- One display channel: with a non-negative linear value, the saturating
truncation of the source equals clamping to [0,1] first and then flooring
`channel^(1/GAMMA) * 255`. -/
theorem asU8_gamma_eq (x : ℝ) (hx : 0 ≤ x) :
    asU8 (gamma_encode x * 255) = ⌊max (min x 1) 0 ^ ((1 : ℝ) / GAMMA) * 255⌋₊ := by
  have he : (0 : ℝ) ≤ 1 / GAMMA := by norm_num [GAMMA]
  rcases le_or_lt x 1 with h1 | h1
  · rw [min_eq_left h1, max_eq_left hx]
    unfold asU8 gamma_encode
    rw [min_eq_right]
    have hle : x ^ ((1 : ℝ) / GAMMA) ≤ 1 := Real.rpow_le_one hx h1 he
    calc ⌊x ^ ((1 : ℝ) / GAMMA) * 255⌋₊ ≤ ⌊(255 : ℝ)⌋₊ := Nat.floor_le_floor (by nlinarith)
    _ = 255 := by norm_num
  · rw [min_eq_right h1.le, max_eq_left zero_le_one, Real.one_rpow, one_mul]
    unfold asU8 gamma_encode
    have hge : (1 : ℝ) ≤ x ^ ((1 : ℝ) / GAMMA) := Real.one_le_rpow h1.le he
    have h255 : (255 : ℕ) ≤ ⌊x ^ ((1 : ℝ) / GAMMA) * 255⌋₊ := Nat.le_floor (by push_cast; nlinarith)
    rw [min_eq_left h255]
    norm_num

/-- C2 (amended): for non-negative linear channels, each display byte equals
`floor(clamp(linear, 0, 1)^(1/2.2) * 255)` — truncation, not rounding — and
the alpha byte is always 255.  (The code never clamps; the saturating
`as u8` cast supplies the equivalent clamping.) -/
theorem C2_display_bytes (c : Color) (hr : 0 ≤ c.red) (hg : 0 ≤ c.green)
    (hb : 0 ≤ c.blue) :
    c.to_rgba =
      ⟨⌊max (min c.red 1) 0 ^ ((1 : ℝ) / GAMMA) * 255⌋₊,
       ⌊max (min c.green 1) 0 ^ ((1 : ℝ) / GAMMA) * 255⌋₊,
       ⌊max (min c.blue 1) 0 ^ ((1 : ℝ) / GAMMA) * 255⌋₊,
       255⟩ := by
  unfold Color.to_rgba
  rw [asU8_gamma_eq _ hr, asU8_gamma_eq _ hg, asU8_gamma_eq _ hb]

/-- Witness for the amended C2 at the zero colour. -/
theorem C2_display_bytes_witness :
    Color.to_rgba ⟨0, 0, 0⟩ =
      ⟨⌊max (min (0 : ℝ) 1) 0 ^ ((1 : ℝ) / GAMMA) * 255⌋₊,
       ⌊max (min (0 : ℝ) 1) 0 ^ ((1 : ℝ) / GAMMA) * 255⌋₊,
       ⌊max (min (0 : ℝ) 1) 0 ^ ((1 : ℝ) / GAMMA) * 255⌋₊,
       255⟩ :=
  C2_display_bytes ⟨0, 0, 0⟩ le_rfl le_rfl le_rfl

/-- The gamma encoding of `2^(-11/5)` is exactly `1/2`. -/
theorem gamma_encode_ex_col : gamma_encode ex_col_half.red = 2⁻¹ := by
  show gamma_encode ((2 : ℝ) ^ ((-11 : ℝ) / 5)) = 2⁻¹
  unfold gamma_encode
  rw [← Real.rpow_mul (by norm_num : (0 : ℝ) ≤ 2)]
  rw [show (-11 : ℝ) / 5 * (1 / GAMMA) = -1 by norm_num [GAMMA]]
  exact Real.rpow_neg_one 2

/-- C2 counterexample: on the colour whose red channel gamma-encodes to
exactly 0.5, the code produces byte 127 (truncation of 127.5) while the
claimed `round(clamp(...)^(1/2.2)*255)` is 128. -/
theorem C2_round_counterexample :
    (Color.to_rgba ex_col_half).r = 127 ∧
    round (max (min ex_col_half.red 1) 0 ^ ((1 : ℝ) / GAMMA) * 255) = 128 ∧
    (127 : ℕ) ≠ 128 := by
  have hpos : (0 : ℝ) < ex_col_half.red := Real.rpow_pos_of_pos (by norm_num) _
  have hlt1 : ex_col_half.red < 1 :=
    Real.rpow_lt_one_of_one_lt_of_neg (by norm_num) (by norm_num)
  refine ⟨?_, ?_, by norm_num⟩
  · show asU8 (gamma_encode ex_col_half.red * 255) = 127
    rw [gamma_encode_ex_col]
    unfold asU8
    have hfl : ⌊(2⁻¹ * 255 : ℝ)⌋₊ = 127 := by
      rw [Nat.floor_eq_iff (by norm_num)]
      norm_num
    rw [hfl]
    norm_num
  · rw [min_eq_left hlt1.le, max_eq_left hpos.le]
    have : ex_col_half.red ^ ((1 : ℝ) / GAMMA) = 2⁻¹ := gamma_encode_ex_col
    rw [this, round_eq]
    norm_num

/-! Arithmetic facts about the truncated remainder and the casts in `wrap`. -/

theorem neg_tmod' (t b : ℤ) : (-t).tmod b = -(t.tmod b) := by
  simp [Int.tmod_def, Int.neg_tdiv]
  ring

theorem neg_lt_tmod (t : ℤ) {b : ℤ} (hb : 0 < b) : -b < t.tmod b := by
  rcases le_or_lt 0 t with ht | ht
  · have h0 := Int.tmod_nonneg b ht
    linarith
  · have h1 : (-t).tmod b < b := Int.tmod_lt_of_pos (-t) hb
    have h2 : (-t).tmod b = -(t.tmod b) := neg_tmod' t b
    linarith

theorem tmod_emod (t b : ℤ) : t.tmod b % b = t % b := by
  conv_rhs => rw [← Int.tmod_add_tdiv t b]
  rw [mul_comm, Int.add_mul_emod_self]

/-- `u32 as i32` is the identity below `2^31`. -/
theorem i32_of_u32_eq (b : ℕ) (hb : (b : ℤ) < 2 ^ 31) : i32_of_u32 b = b := by
  have hb' : (b : ℤ) < 2147483648 := by exact_mod_cast (by norm_num : ((2:ℤ)^31) = 2147483648) ▸ hb
  have hb0 : (0 : ℤ) ≤ b := Int.ofNat_nonneg b
  unfold i32_of_u32
  have : ((b : ℤ) + 2 ^ 31) % 2 ^ 32 = (b : ℤ) + 2 ^ 31 := by
    apply Int.emod_eq_of_lt <;> norm_num <;> omega
  rw [this]
  ring

/-- The saturating `f32 as i32` cast is plain truncation inside the range. -/
theorem real_to_i32_eq (x : ℝ) (hlo : -(2 ^ 31) < x) (hhi : x < 2 ^ 31) :
    real_to_i32 x = rtrunc x := by
  unfold real_to_i32 rtrunc
  split_ifs with hx
  · have hup : ⌊x⌋ ≤ 2 ^ 31 - 1 := by
      have : ⌊x⌋ < 2 ^ 31 := Int.floor_lt.mpr (by exact_mod_cast hhi)
      omega
    have hlow : -(2 ^ 31) ≤ ⌊x⌋ := Int.le_floor.mpr (by push_cast; linarith)
    rw [min_eq_right hup, max_eq_right hlow]
  · have hup : ⌈x⌉ ≤ 2 ^ 31 - 1 := by
      have h0 : ⌈x⌉ ≤ 0 := Int.ceil_le.mpr (by push_cast; linarith [le_of_not_le hx])
      omega
    have hlow : -(2 ^ 31) ≤ ⌈x⌉ := by
      have := Int.le_ceil x
      have : (-(2 ^ 31) : ℝ) < (⌈x⌉ : ℤ) := by
        push_cast
        linarith [Int.le_ceil x]
      exact_mod_cast this.le
    rw [min_eq_right hup, max_eq_right hlow]

/-- The general behaviour of `wrap` inside the representable range: it is
the truncation-based modulus `((trunc(v*b) tmod b) + b) mod b`, a
non-negative index strictly below the bound. -/
theorem wrap_spec_aux (v : ℝ) (b : ℕ) (hb : 0 < b) (hb31 : (b : ℤ) < 2 ^ 31)
    (hlo : -(2 ^ 31) < v * b) (hhi : v * (b : ℝ) < 2 ^ 31) :
    (wrap v b : ℤ) = ((rtrunc (v * b)).tmod b + b) % b ∧ wrap v b < b := by
  have hbz : (0 : ℤ) < b := by exact_mod_cast hb
  set t : ℤ := rtrunc (v * b) with hT
  have hcast : real_to_i32 (v * b) = t := real_to_i32_eq _ hlo hhi
  have hsigned : i32_of_u32 b = b := i32_of_u32_eq b hb31
  set w : ℤ := t.tmod b with hW
  have hwlt : w < b := Int.tmod_lt_of_pos t hbz
  have hwgt : -(b : ℤ) < w := neg_lt_tmod t hbz
  have hunfold : wrap v b = if w < 0 then (w + b).toNat else w.toNat := by
    simp only [wrap]
    rw [hsigned, hcast]
  rcases lt_or_le w 0 with hw | hw
  · have hsum : ((w + b) : ℤ) % b = (w + b) := Int.emod_eq_of_lt (by omega) (by omega)
    have hval : (wrap v b : ℤ) = w + b := by
      rw [hunfold, if_pos hw]
      omega
    constructor
    · rw [hval]
      exact hsum.symm
    · have hlt : (wrap v b : ℤ) < b := by rw [hval]; omega
      exact_mod_cast hlt
  · have hval : (wrap v b : ℤ) = w := by
      rw [hunfold, if_neg (not_lt.mpr hw)]
      omega
    constructor
    · have h1 : (w + b) % b = w := by
        rw [show w + b = w + b * 1 by ring, Int.add_mul_emod_self_left]
        exact Int.emod_eq_of_lt hw hwlt
      rw [hval, h1]
    · have hlt : (wrap v b : ℤ) < b := by rw [hval]; omega
      exact_mod_cast hlt

/-- C8 (amended): for every real UV coordinate `v` and bound `0 < b < 2^31`
with `v*b` inside the representable range, `wrap v b` equals
`((trunc(v*b) mod b) + b) mod b` where `trunc` truncates toward zero (the
claimed formula with `floor` replaced by the truncation the `as i32` cast
performs), and it is a non-negative index strictly below the bound. -/
theorem C8_wrap_formula (v : ℝ) (b : ℕ) (hb : 0 < b) (hb31 : (b : ℤ) < 2 ^ 31)
    (hlo : -(2 ^ 31) < v * b) (hhi : v * (b : ℝ) < 2 ^ 31) :
    (wrap v b : ℤ) = ((rtrunc (v * b)).tmod b + b) % b ∧ wrap v b < b :=
  wrap_spec_aux v b hb hb31 hlo hhi

/-- Evaluation of `wrap` at a concrete rational UV via the truncation. -/
theorem wrap_value (v : ℝ) (b : ℕ) (t k : ℤ) (hb : 0 < b) (hb31 : (b : ℤ) < 2 ^ 31)
    (hlo : -(2 ^ 31) < v * b) (hhi : v * (b : ℝ) < 2 ^ 31)
    (ht : rtrunc (v * b) = t) (hk : (t.tmod b + b) % b = k) (hk0 : 0 ≤ k) :
    (wrap v b : ℤ) = k := by
  have h := (wrap_spec_aux v b hb hb31 hlo hhi).1
  rw [ht, hk] at h
  exact h

/-- C8 counterexample: at UV `-0.2` with bound 3, the code truncates
`-0.6` to 0 and wraps to texel 0, while the claimed floor-based formula
gives texel 2; consequently UV `-0.2` and UV `0.8` (texel 2) land on
different texels, refuting both the formula and the claimed wrap-around
instance for arbitrary bounds. -/
theorem C8_floor_counterexample :
    wrap (-2/10) 3 = 0 ∧
    ((⌊((-2 : ℝ)/10) * 3⌋.tmod 3 + 3) % 3).toNat = 2 ∧
    wrap (8/10) 3 = 2 ∧
    wrap (-2/10) 3 ≠ wrap (8/10) 3 := by
  have ht1 : rtrunc ((-2/10 : ℝ) * 3) = 0 := by
    unfold rtrunc
    rw [if_neg (by norm_num)]
    norm_num
  have ht2 : rtrunc ((8/10 : ℝ) * 3) = 2 := by
    unfold rtrunc
    rw [if_pos (by norm_num)]
    norm_num
  have h1 : (wrap (-2/10 : ℝ) 3 : ℤ) = 0 :=
    wrap_value _ _ _ _ (by norm_num) (by norm_num) (by norm_num) (by norm_num) ht1
      (by decide) (by norm_num)
  have h2 : (wrap (8/10 : ℝ) 3 : ℤ) = 2 :=
    wrap_value _ _ _ _ (by norm_num) (by norm_num) (by norm_num) (by norm_num) ht2
      (by decide) (by norm_num)
  have hfl : ⌊((-2 : ℝ)/10) * 3⌋ = -1 := by norm_num
  refine ⟨by exact_mod_cast h1, ?_, by exact_mod_cast h2, ?_⟩
  · rw [hfl]
    decide
  · intro hEq
    rw [hEq] at h1
    rw [h1] at h2
    norm_num at h2

/-- Witness for the amended C8: at bound 10 the truncation-based wrap sends
UV 1.3 and 0.3 to texel 3, and UV -0.2 and 0.8 to texel 8 (here `0.2 * 10`
is integral, so the spec's wrap-around example does hold). -/
theorem C8_wrap_formula_witness :
    wrap (13/10) 10 = 3 ∧ wrap (3/10) 10 = 3 ∧
    wrap (-2/10) 10 = 8 ∧ wrap (8/10) 10 = 8 := by
  have ht1 : rtrunc ((13/10 : ℝ) * ((10 : ℕ) : ℝ)) = 13 := by
    unfold rtrunc
    rw [if_pos (by push_cast; norm_num)]
    push_cast
    norm_num
  have ht2 : rtrunc ((3/10 : ℝ) * ((10 : ℕ) : ℝ)) = 3 := by
    unfold rtrunc
    rw [if_pos (by push_cast; norm_num)]
    push_cast
    norm_num
  have ht3 : rtrunc ((-2/10 : ℝ) * ((10 : ℕ) : ℝ)) = -2 := by
    unfold rtrunc
    rw [if_neg (by push_cast; norm_num)]
    rw [show ((-2 : ℝ))/10 * ((10 : ℕ) : ℝ) = ((-2 : ℤ) : ℝ) by push_cast; ring]
    exact Int.ceil_intCast (-2)
  have ht4 : rtrunc ((8/10 : ℝ) * ((10 : ℕ) : ℝ)) = 8 := by
    unfold rtrunc
    rw [if_pos (by push_cast; norm_num)]
    push_cast
    norm_num
  have h1 : (wrap (13/10 : ℝ) 10 : ℤ) = 3 := by
    have h := (C8_wrap_formula (13/10) 10 (by norm_num) (by norm_num) (by norm_num)
      (by norm_num)).1
    rw [ht1] at h
    rw [h]
    rw [show ((10 : ℕ) : ℤ) = 10 by norm_num]
    decide
  have h2 : (wrap (3/10 : ℝ) 10 : ℤ) = 3 := by
    have h := (C8_wrap_formula (3/10) 10 (by norm_num) (by norm_num) (by norm_num)
      (by norm_num)).1
    rw [ht2] at h
    rw [h]
    rw [show ((10 : ℕ) : ℤ) = 10 by norm_num]
    decide
  have h3 : (wrap (-2/10 : ℝ) 10 : ℤ) = 8 := by
    have h := (C8_wrap_formula (-2/10) 10 (by norm_num) (by norm_num) (by norm_num)
      (by norm_num)).1
    rw [ht3] at h
    rw [h]
    rw [show ((10 : ℕ) : ℤ) = 10 by norm_num]
    decide
  have h4 : (wrap (8/10 : ℝ) 10 : ℤ) = 8 := by
    have h := (C8_wrap_formula (8/10) 10 (by norm_num) (by norm_num) (by norm_num)
      (by norm_num)).1
    rw [ht4] at h
    rw [h]
    rw [show ((10 : ℕ) : ℤ) = 10 by norm_num]
    decide
  exact ⟨by exact_mod_cast h1, by exact_mod_cast h2, by exact_mod_cast h3,
    by exact_mod_cast h4⟩

/-! Arithmetic of the column-stripe partition in `render_in_threads`. -/

theorem lt_div_succ_mul (x s : ℕ) (hs : 0 < s) : x < (x / s + 1) * s := by
  have hd := Nat.div_add_mod x s
  have hm := Nat.mod_lt x hs
  have hc : s * (x / s) = (x / s) * s := mul_comm _ _
  rw [Nat.succ_mul]
  linarith

theorem stripe_size_pos (w n : ℕ) (hn : 0 < n) (hw : 0 < w) : 0 < stripe_size w n := by
  unfold stripe_size
  split_ifs with h
  · exact Nat.div_pos (Nat.le_of_dvd hw (Nat.dvd_of_mod_eq_zero h)) hn
  · exact Nat.succ_pos _

theorem w_le_mul_stripe (w n : ℕ) (hn : 0 < n) : w ≤ n * stripe_size w n := by
  unfold stripe_size
  split_ifs with h
  · exact (Nat.mul_div_cancel' (Nat.dvd_of_mod_eq_zero h)).ge
  · rw [Nat.mul_succ]
    have hd := Nat.div_add_mod w n
    have hm := Nat.mod_lt w hn
    linarith

theorem stripe_size_eq_ceil (w n : ℕ) (hn : 0 < n) :
    stripe_size w n = (w + n - 1) / n := by
  symm
  apply Nat.div_eq_of_lt_le
  · apply Nat.le_sub_one_of_lt
    unfold stripe_size
    split_ifs with h
    · have hle : w / n * n ≤ w := Nat.div_mul_le_self w n
      linarith
    · rw [Nat.succ_mul]
      have hd := Nat.div_add_mod w n
      have hm : 0 < w % n := Nat.pos_of_ne_zero h
      have hc : n * (w / n) = w / n * n := mul_comm _ _
      linarith
  · rw [Nat.succ_mul]
    have hw : w ≤ stripe_size w n * n := by
      rw [mul_comm]
      exact w_le_mul_stripe w n hn
    have h1 : w + n - 1 < w + n := Nat.sub_lt (by omega) one_pos
    have h2 : w + n ≤ stripe_size w n * n + n := Nat.add_le_add_right hw n
    omega

/-- Any column below the image width lies in exactly the stripe indexed by
its quotient; no column lies in two distinct stripes. -/
theorem stripe_mem_unique (w n i x : ℕ)
    (h1 : stripe_start w n i ≤ x) (h2 : x < stripe_end w n i) :
    x / stripe_size w n = i := by
  have hs : 0 < stripe_size w n := by
    rcases Nat.eq_zero_or_pos (stripe_size w n) with h | h
    · exfalso
      have he : stripe_end w n i = 0 := by
        unfold stripe_end
        rw [h, Nat.mul_zero]
        simp
      omega
    · exact h
  apply Nat.div_eq_of_lt_le
  · simpa [stripe_start] using h1
  · have hx2 : x < (i + 1) * stripe_size w n :=
      lt_of_lt_of_le h2 (by unfold stripe_end; exact min_le_left _ _)
    exact hx2

theorem stripe_cover (w n x : ℕ) (hn : 0 < n) :
    (∃ i, i < n ∧ stripe_start w n i ≤ x ∧ x < stripe_end w n i) ↔ x < w := by
  constructor
  · rintro ⟨i, -, -, h2⟩
    exact lt_of_lt_of_le h2 (min_le_right _ _)
  · intro hx
    have hw : 0 < w := by omega
    have hs : 0 < stripe_size w n := stripe_size_pos w n hn hw
    refine ⟨x / stripe_size w n, ?_, ?_, ?_⟩
    · rw [Nat.div_lt_iff_lt_mul hs]
      have h1 := w_le_mul_stripe w n hn
      have hc : n * stripe_size w n = stripe_size w n * n := mul_comm _ _
      linarith
    · unfold stripe_start
      exact Nat.div_mul_le_self x _
    · unfold stripe_end
      apply lt_min
      · exact lt_div_succ_mul x _ hs
      · exact hx

/-- C9: for `1 ≤ N ≤ width`, the stripe width is `ceil(width/N)`, worker `i`
covers columns `[i*ceil(width/N), min((i+1)*ceil(width/N), width))`, and
these stripes are pairwise disjoint and together cover exactly
`[0, width)`. -/
theorem C9_stripe_partition (w n : ℕ) (hn : 1 ≤ n) (hnw : n ≤ w) :
    stripe_size w n = (w + n - 1) / n ∧
    (∀ i j x, i ≠ j →
      ¬(stripe_start w n i ≤ x ∧ x < stripe_end w n i ∧
        stripe_start w n j ≤ x ∧ x < stripe_end w n j)) ∧
    (∀ x, x < w ↔ ∃ i, i < n ∧ stripe_start w n i ≤ x ∧ x < stripe_end w n i) := by
  refine ⟨stripe_size_eq_ceil w n hn, ?_, fun x => (stripe_cover w n x hn).symm⟩
  rintro i j x hij ⟨a1, a2, a3, a4⟩
  exact hij ((stripe_mem_unique w n i x a1 a2).symm.trans (stripe_mem_unique w n j x a3 a4))

/-- Witness for C9 at width 10 with 3 workers (stripes [0,4), [4,8), [8,10)). -/
theorem C9_stripe_partition_witness :
    stripe_size 10 3 = (10 + 3 - 1) / 3 ∧ stripe_size 10 3 = 4 :=
  ⟨(C9_stripe_partition 10 3 (by norm_num) (by norm_num)).1, by decide⟩

/-! Assembly of the parallel renderer's stripes. -/

theorem RImage.ext' (a b : RImage) (hw : a.width = b.width) (hh : a.height = b.height)
    (hp : ∀ x y, a.pix x y = b.pix x y) : a = b := by
  cases a
  cases b
  simp only at hw hh hp
  subst hw
  subst hh
  congr 1
  funext x y
  exact hp x y

/-- One stripe copy writes the shade of the global column into every covered
pixel and leaves everything else untouched. -/
theorem copy_step_pix (scene : Scene) (n j : ℕ) (img : RImage) (x y : ℕ) :
    (img.copy_from
        (render scene (stripe_start scene.width n j) (stripe_end scene.width n j))
        (stripe_start scene.width n j) 0).pix x y =
      if stripe_start scene.width n j ≤ x ∧ x < stripe_end scene.width n j ∧
          y < scene.height then
        (get_color scene (Ray.create_prime x y scene) 0).to_rgba
      else img.pix x y := by
  unfold RImage.copy_from render
  simp only []
  by_cases hc : stripe_start scene.width n j ≤ x ∧ x < stripe_end scene.width n j ∧
      y < scene.height
  · rw [if_pos hc, if_pos ⟨hc.1, by omega, by omega, by simpa using hc.2.2⟩,
      if_pos ⟨by omega, hc.2.2⟩]
    rw [show stripe_start scene.width n j + (x - stripe_start scene.width n j) = x by omega,
      Nat.sub_zero]
  · rw [if_neg hc, if_neg]
    rintro ⟨b1, b2, -, b4⟩
    simp only [Nat.sub_zero] at b4
    exact hc ⟨b1, by omega, b4⟩

/-- Folding stripe copies over any index list: a pixel covered by some stripe
in the list reads the shade of its global coordinates; any other pixel reads
the accumulator. -/
theorem foldl_copy_pix (scene : Scene) (n : ℕ) (l : List ℕ) (img : RImage) (x y : ℕ) :
    ((l.foldl (fun image i =>
        image.copy_from
          (render scene (stripe_start scene.width n i) (stripe_end scene.width n i))
          (stripe_start scene.width n i) 0) img).pix x y) =
      if ∃ i ∈ l, stripe_start scene.width n i ≤ x ∧ x < stripe_end scene.width n i ∧
          y < scene.height then
        (get_color scene (Ray.create_prime x y scene) 0).to_rgba
      else img.pix x y := by
  induction l generalizing img with
  | nil => simp
  | cons j l ih =>
      rw [List.foldl_cons, ih, copy_step_pix]
      by_cases hj : stripe_start scene.width n j ≤ x ∧ x < stripe_end scene.width n j ∧
          y < scene.height
      · rw [if_pos hj]
        by_cases hrest : ∃ i ∈ l, stripe_start scene.width n i ≤ x ∧
            x < stripe_end scene.width n i ∧ y < scene.height
        · rw [if_pos hrest, if_pos ⟨j, List.mem_cons_self j l, hj⟩]
        · rw [if_neg hrest, if_pos ⟨j, List.mem_cons_self j l, hj⟩]
      · rw [if_neg hj]
        by_cases hrest : ∃ i ∈ l, stripe_start scene.width n i ≤ x ∧
            x < stripe_end scene.width n i ∧ y < scene.height
        · obtain ⟨i, hi, hcond⟩ := hrest
          rw [if_pos ⟨i, hi, hcond⟩, if_pos ⟨i, List.mem_cons_of_mem j hi, hcond⟩]
        · rw [if_neg hrest, if_neg]
          rintro ⟨i, hi, hcond⟩
          rcases List.mem_cons.mp hi with h | h
          · subst h; exact hj hcond
          · exact hrest ⟨i, h, hcond⟩

/-- The fold of stripe copies keeps the base image's dimensions. -/
theorem foldl_copy_dims (scene : Scene) (n : ℕ) (l : List ℕ) (img : RImage) :
    ((l.foldl (fun image i =>
        image.copy_from
          (render scene (stripe_start scene.width n i) (stripe_end scene.width n i))
          (stripe_start scene.width n i) 0) img).width = img.width) ∧
    ((l.foldl (fun image i =>
        image.copy_from
          (render scene (stripe_start scene.width n i) (stripe_end scene.width n i))
          (stripe_start scene.width n i) 0) img).height = img.height) := by
  induction l generalizing img with
  | nil => exact ⟨rfl, rfl⟩
  | cons j l ih =>
      rw [List.foldl_cons]
      exact ⟨(ih _).1, (ih _).2⟩

/-- Under the no-panic guard, the assembled parallel render is the canonical
image whose every in-bounds pixel is the shade of its own coordinates. -/
theorem render_threads_canonical (scene : Scene) (n : ℕ) (hn : 1 ≤ n)
    (hok : ∀ i < n, stripe_start scene.width n i ≤ stripe_end scene.width n i) :
    render_in_threads scene n =
      some ⟨scene.width, scene.height, fun x y =>
        if x < scene.width ∧ y < scene.height then
          (get_color scene (Ray.create_prime x y scene) 0).to_rgba
        else blackPx⟩ := by
  unfold render_in_threads
  rw [if_pos ⟨hn, hok⟩]
  congr 1
  apply RImage.ext'
  · exact (foldl_copy_dims scene n (List.range n) (new_rgb8 scene.width scene.height)).1
  · exact (foldl_copy_dims scene n (List.range n) (new_rgb8 scene.width scene.height)).2
  · intro x y
    rw [foldl_copy_pix]
    simp only []
    by_cases hxy : x < scene.width ∧ y < scene.height
    · rw [if_pos hxy, if_pos]
      obtain ⟨i, hi, h1, h2⟩ := (stripe_cover scene.width n x hn).mpr hxy.1
      exact ⟨i, List.mem_range.mpr hi, h1, h2, hxy.2⟩
    · rw [if_neg hxy, if_neg]
      · rfl
      · rintro ⟨i, -, h1, h2, hy⟩
        exact hxy ⟨lt_of_lt_of_le h2 (min_le_right _ _), hy⟩

/-- C1 (amended): for a landscape scene and any worker count `N ≥ 1` whose
stripes all satisfy `start ≤ end` (no `u32` underflow), the parallel render
equals the single-worker render byte for byte, the run succeeds, and every
pixel is the pure shade of its own coordinates and the scene.  (Determinism
of re-rendering is definitional: the model is a pure function.) -/
theorem C1_worker_count_independence (scene : Scene) (n : ℕ) (hn : 1 ≤ n)
    (hwh : scene.height < scene.width)
    (hok : ∀ i < n, stripe_start scene.width n i ≤ stripe_end scene.width n i) :
    render_in_threads scene n = render_in_threads scene 1 ∧
    ∃ img, render_in_threads scene n = some img ∧
      img.width = scene.width ∧ img.height = scene.height ∧
      ∀ x y, x < scene.width → y < scene.height →
        img.pix x y = (get_color scene (Ray.create_prime x y scene) 0).to_rgba := by
  have hok1 : ∀ i < 1, stripe_start scene.width 1 i ≤ stripe_end scene.width 1 i := by
    intro i hi
    interval_cases i
    unfold stripe_start stripe_end
    omega
  have hcanon := render_threads_canonical scene n hn hok
  have hcanon1 := render_threads_canonical scene 1 le_rfl hok1
  refine ⟨hcanon.trans hcanon1.symm, ⟨_, hcanon, rfl, rfl, ?_⟩⟩
  intro x y hx hy
  exact if_pos ⟨hx, hy⟩

/-- C1 counterexample: on a 10-wide scene, 7 workers give stripe width 2, so
worker 6 gets `start_width = 12 > 10 = end_width` and the run panics on the
`u32` subtraction — no image is produced, unlike the 1-worker run.  The
claim's "byte-identical for every worker count N ≥ 1" therefore fails. -/
theorem C1_worker_count_counterexample :
    render_in_threads ex_scene_nil 7 ≠ render_in_threads ex_scene_nil 1 := by
  have h7 : render_in_threads ex_scene_nil 7 = none := by
    unfold render_in_threads
    rw [if_neg]
    rintro ⟨-, hall⟩
    have h6 := hall 6 (by norm_num)
    revert h6
    decide
  have hok1 : ∀ i < 1, stripe_start ex_scene_nil.width 1 i ≤
      stripe_end ex_scene_nil.width 1 i := by decide
  have h1 := render_threads_canonical ex_scene_nil 1 le_rfl hok1
  rw [h7, h1]
  intro h
  exact Option.noConfusion h

/-- Witness for the amended C1: the empty 10×5 scene rendered with 2 workers
equals the 1-worker render. -/
theorem C1_worker_count_independence_witness :
    render_in_threads ex_scene_nil 2 = render_in_threads ex_scene_nil 1 :=
  (C1_worker_count_independence ex_scene_nil 2 (by norm_num) (by decide) (by decide)).1

theorem Color.smul_zero' (c : Color) : c * (0 : ℝ) = (⟨0, 0, 0⟩ : Color) := by
  simp [Color.smul_def']

/-- A light whose shadow ray hits something at distance less than or equal
to the light distance contributes zero (the source compares with `>`). -/
theorem light_contribution_blocked (scene : Scene) (material : Material)
    (tc : TextureCoords) (hp : Point) (n : Vector3) (light : Light)
    (i : Intersection)
    (hi : scene.trace ⟨hp + n, light.direction hp⟩ = some i)
    (hle : (i.distance : EReal) ≤ light.distance hp) :
    light_contribution scene material tc hp n light = ⟨0, 0, 0⟩ := by
  unfold light_contribution
  simp only []
  rw [hi]
  simp only []
  rw [if_neg (not_lt.mpr hle), mul_zero, Color.smul_zero', Color.zero_smul',
    Color.mul_zero']

/-- An unblocked light contributes the spec's diffuse formula. -/
theorem light_contribution_unblocked (scene : Scene) (material : Material)
    (tc : TextureCoords) (hp : Point) (n : Vector3) (light : Light)
    (hcase : scene.trace ⟨hp + n, light.direction hp⟩ = none ∨
      ∃ i, scene.trace ⟨hp + n, light.direction hp⟩ = some i ∧
        light.distance hp < (i.distance : EReal)) :
    light_contribution scene material tc hp n light =
      material.color' tc * light.color * max 0 (n.dot (light.direction hp)) *
        light.intensity hp * (material.surface_type.diffuse_albedo / Real.pi) := by
  unfold light_contribution
  simp only []
  rcases hcase with h | ⟨i, hi, hgt⟩
  · rw [h]
    simp only []
    rw [max_comm 0 (n.dot (light.direction hp))]
    simp only [Color.mul_def, Color.smul_def', Color.mk.injEq]
    refine ⟨by ring, by ring, by ring⟩
  · rw [hi]
    simp only []
    rw [if_pos hgt, max_comm 0 (n.dot (light.direction hp))]
    simp only [Color.mul_def, Color.smul_def', Color.mk.injEq]
    refine ⟨by ring, by ring, by ring⟩

/-- C3 (amended): in the direct term, for a light at a hit point of a
material with positive diffuse albedo, the contribution is zero whenever the
shadow ray (offset along the surface normal) hits something at distance
*less than or equal to* the light's distance (the code compares with `>`,
so an occluder at exactly the light's distance also darkens); otherwise the
contribution is
`material_color * light_color * max(0, dot(normal, dir)) * intensity * (albedo/π)`. -/
theorem C3_direct_lighting (scene : Scene) (material : Material)
    (tc : TextureCoords) (hp : Point) (n : Vector3) (light : Light)
    (halb : 0 < material.surface_type.diffuse_albedo) :
    (∀ i, scene.trace ⟨hp + n, light.direction hp⟩ = some i →
      (i.distance : EReal) ≤ light.distance hp →
      light_contribution scene material tc hp n light = ⟨0, 0, 0⟩) ∧
    ((scene.trace ⟨hp + n, light.direction hp⟩ = none ∨
        ∃ i, scene.trace ⟨hp + n, light.direction hp⟩ = some i ∧
          light.distance hp < (i.distance : EReal)) →
      light_contribution scene material tc hp n light =
        material.color' tc * light.color * max 0 (n.dot (light.direction hp)) *
          light.intensity hp * (material.surface_type.diffuse_albedo / Real.pi)) :=
  ⟨fun i hi hle => light_contribution_blocked scene material tc hp n light i hi hle,
   fun hcase => light_contribution_unblocked scene material tc hp n light hcase⟩

theorem sqrt_sixteen : Real.sqrt 16 = 4 := by
  rw [show (16 : ℝ) = 4 ^ 2 by norm_num, Real.sqrt_sq (by norm_num : (0 : ℝ) ≤ 4)]

/-- The example spherical light is straight up from the origin. -/
theorem ex_light_dir : ex_light.direction ⟨0, 0, 0⟩ = ⟨0, 1, 0⟩ := by
  simp only [ex_light, Light.direction, Point.sub_def, Vector3.normalize, Vector3.length,
    Vector3.norm, Vector3.dot]
  norm_num [sqrt_sixteen]

/-- The example light is at distance exactly 4 from the origin. -/
theorem ex_light_dist : ex_light.distance ⟨0, 0, 0⟩ = ((4 : ℝ) : EReal) := by
  simp only [ex_light, Light.distance, Point.sub_def, Vector3.length, Vector3.norm,
    Vector3.dot]
  norm_num [sqrt_sixteen]

/-- The example light's attenuated intensity at the origin. -/
theorem ex_light_int : ex_light.intensity ⟨0, 0, 0⟩ = 1 / (4 * Real.pi * 16) := by
  simp only [ex_light, Light.intensity, Point.sub_def, Vector3.norm, Vector3.dot]
  norm_num

/-- The shadow ray of the shadow-boundary scene hits the occluder at
distance exactly 4. -/
theorem ex_shadow_trace :
    ex_scene_shadow.trace
        ⟨(⟨0, 0, 0⟩ : Point) + (⟨0, 1, 0⟩ : Vector3), (⟨0, 1, 0⟩ : Vector3)⟩ =
      some ⟨4, Object.plane ex_plane_occluder⟩ := by
  have hobj : Object.intersect (Object.plane ex_plane_occluder)
      ⟨(⟨0, 0, 0⟩ : Point) + (⟨0, 1, 0⟩ : Vector3), (⟨0, 1, 0⟩ : Vector3)⟩ = some 4 := by
    simp only [Object.intersect, Plane.intersect, ex_plane_occluder, Point.sub_def,
      Point.add_vec_def, Vector3.dot]
    norm_num
  simp only [Scene.trace, Scene.hits, ex_scene_shadow]
  simp only [List.filterMap_cons, hobj, List.filterMap_nil, Option.map_some']
  simp only [min_by_dist, List.foldl_cons, List.foldl_nil, min_step]

/-- C3 counterexample: the occluder plane sits at distance exactly equal to
the light distance (4); the code zeroes the light, there is no strictly
nearer hit, and the claimed formula value is strictly positive — so
"contributes zero exactly when strictly nearer" is false on this scene. -/
theorem C3_shadow_boundary_counterexample :
    light_contribution ex_scene_shadow ex_mat_diffuse ⟨0, 0⟩ ⟨0, 0, 0⟩ ⟨0, 1, 0⟩ ex_light
      = ⟨0, 0, 0⟩ ∧
    (∀ i, ex_scene_shadow.trace
        ⟨(⟨0, 0, 0⟩ : Point) + (⟨0, 1, 0⟩ : Vector3), ex_light.direction ⟨0, 0, 0⟩⟩ =
          some i →
      ¬((i.distance : EReal) < ex_light.distance ⟨0, 0, 0⟩)) ∧
    ex_mat_diffuse.color' ⟨0, 0⟩ * ex_light.color *
        max 0 ((⟨0, 1, 0⟩ : Vector3).dot (ex_light.direction ⟨0, 0, 0⟩)) *
        ex_light.intensity ⟨0, 0, 0⟩ *
        (ex_mat_diffuse.surface_type.diffuse_albedo / Real.pi) ≠ ⟨0, 0, 0⟩ := by
  have htrace : ex_scene_shadow.trace
      ⟨(⟨0, 0, 0⟩ : Point) + (⟨0, 1, 0⟩ : Vector3), ex_light.direction ⟨0, 0, 0⟩⟩ =
        some ⟨4, Object.plane ex_plane_occluder⟩ := by
    rw [ex_light_dir]
    exact ex_shadow_trace
  refine ⟨?_, ?_, ?_⟩
  · apply light_contribution_blocked ex_scene_shadow ex_mat_diffuse ⟨0, 0⟩ ⟨0, 0, 0⟩
      ⟨0, 1, 0⟩ ex_light ⟨4, Object.plane ex_plane_occluder⟩ htrace
    rw [ex_light_dist]
  · intro i hi
    rw [htrace] at hi
    obtain rfl := Option.some.inj hi
    rw [ex_light_dist]
    simp
  · rw [ex_light_dir, ex_light_int]
    intro h
    have hred := congrArg Color.red h
    simp only [Material.color', ex_mat_diffuse, ColorType.color', ex_light, Light.color,
      Vector3.dot, SurfaceType.diffuse_albedo, Color.mul_def, Color.smul_def'] at hred
    norm_num at hred
    first
      | exact Real.pi_ne_zero hred
      | exact Real.pi_ne_zero hred.symm
      | nlinarith [Real.pi_pos, hred]
      | simp_all [Real.pi_ne_zero]

/-- Witness for the amended C3: with no occluders the light contributes
exactly the diffuse formula. -/
theorem C3_direct_lighting_witness :
    light_contribution ex_scene_nil ex_mat_diffuse ⟨0, 0⟩ ⟨0, 0, 0⟩ ⟨0, 1, 0⟩ ex_light =
      ex_mat_diffuse.color' ⟨0, 0⟩ * ex_light.color *
        max 0 ((⟨0, 1, 0⟩ : Vector3).dot (ex_light.direction ⟨0, 0, 0⟩)) *
        ex_light.intensity ⟨0, 0, 0⟩ *
        (ex_mat_diffuse.surface_type.diffuse_albedo / Real.pi) :=
  (C3_direct_lighting ex_scene_nil ex_mat_diffuse ⟨0, 0⟩ ⟨0, 0, 0⟩ ⟨0, 1, 0⟩ ex_light
    (by norm_num [ex_mat_diffuse])).2
    (Or.inl (by simp [Scene.trace, Scene.hits, ex_scene_nil, min_by_dist]))

/-- `Ray::refract` returns no direction exactly when the Snell discriminant
is negative. -/
theorem refract_none_iff (ray : Ray) (normal : Vector3) (ior_from ior_to : ℝ) :
    ray.refract normal ior_from ior_to = none ↔
      ray.refract_discriminant normal ior_from ior_to < 0 := by
  unfold Ray.refract Ray.refract_discriminant
  simp only []
  constructor
  · intro h
    by_contra hk
    rw [if_neg hk] at h
    exact Option.noConfusion h
  · intro hk
    rw [if_pos hk]

/-- When the material is refractive and `refract` reports total internal
reflection, `get_color` adds only the Fresnel-weighted reflected shade: the
refraction term is the zero colour. -/
theorem get_color_tir (scene : Scene) (ray : Ray) (depth : ℕ) (v : Intersection)
    (hd : depth ≤ 5) (ht : scene.trace ray = some v)
    (hior : 0 < v.obj.material.surface_type.refractive_index)
    (hrefr : ray.refract (v.obj.surface_normal (ray.origin + ray.direction * v.distance)) 1
        v.obj.material.surface_type.refractive_index = none) :
    get_color scene ray depth =
      Color.clamp
        ((if v.obj.material.surface_type.diffuse_albedo > 0 then
            direct_term scene v.obj.material
              (v.obj.texture_coords (ray.origin + ray.direction * v.distance))
              (ray.origin + ray.direction * v.distance)
              (v.obj.surface_normal (ray.origin + ray.direction * v.distance))
          else ⟨0, 0, 0⟩) +
          get_color scene
            ⟨ray.origin + ray.direction * v.distance +
                v.obj.surface_normal (ray.origin + ray.direction * v.distance),
              ray.reflect_direction
                (v.obj.surface_normal (ray.origin + ray.direction * v.distance))⟩
            (depth + 1) *
            ray.fresnel (v.obj.surface_normal (ray.origin + ray.direction * v.distance)) 1
              v.obj.material.surface_type.refractive_index) := by
  rw [get_color]
  rw [dif_neg (show ¬ depth > 5 by omega)]
  simp only [ht]
  rw [if_pos hior]
  rw [hrefr]
  simp only [ite_self]
  rw [Color.zero_smul', Color.add_zero']

/-- C7: `Ray::refract` returns no direction exactly when the Snell
discriminant is negative, and for a refractive material in that case the
shading adds a zero refraction term and only the Fresnel-weighted,
recursively shaded reflected ray. -/
theorem C7_total_internal_reflection :
    (∀ (ray : Ray) (normal : Vector3) (ior_from ior_to : ℝ),
      ray.refract normal ior_from ior_to = none ↔
        ray.refract_discriminant normal ior_from ior_to < 0) ∧
    (∀ (scene : Scene) (ray : Ray) (depth : ℕ) (v : Intersection),
      depth ≤ 5 → scene.trace ray = some v →
      0 < v.obj.material.surface_type.refractive_index →
      ray.refract (v.obj.surface_normal (ray.origin + ray.direction * v.distance)) 1
          v.obj.material.surface_type.refractive_index = none →
      get_color scene ray depth =
        Color.clamp
          ((if v.obj.material.surface_type.diffuse_albedo > 0 then
              direct_term scene v.obj.material
                (v.obj.texture_coords (ray.origin + ray.direction * v.distance))
                (ray.origin + ray.direction * v.distance)
                (v.obj.surface_normal (ray.origin + ray.direction * v.distance))
            else ⟨0, 0, 0⟩) +
            get_color scene
              ⟨ray.origin + ray.direction * v.distance +
                  v.obj.surface_normal (ray.origin + ray.direction * v.distance),
                ray.reflect_direction
                  (v.obj.surface_normal (ray.origin + ray.direction * v.distance))⟩
              (depth + 1) *
              ray.fresnel
                (v.obj.surface_normal (ray.origin + ray.direction * v.distance)) 1
                v.obj.material.surface_type.refractive_index)) :=
  ⟨refract_none_iff, get_color_tir⟩

/-- The glass floor's surface normal points straight up. -/
theorem ex_glass_normal :
    (Object.plane ex_plane_glass).surface_normal
      (ex_ray_tir.origin + ex_ray_tir.direction * (2 : ℝ)) = ⟨0, 1, 0⟩ := by
  simp only [Object.surface_normal, Plane.surface_normal, ex_plane_glass, Vector3.neg_def]
  norm_num

/-- The grazing ray hits the glass floor at distance 2. -/
theorem ex_glass_trace :
    ex_scene_glass.trace ex_ray_tir = some ⟨2, Object.plane ex_plane_glass⟩ := by
  have hobj : Object.intersect (Object.plane ex_plane_glass) ex_ray_tir = some 2 := by
    simp only [Object.intersect, Plane.intersect, ex_plane_glass, ex_ray_tir,
      Point.sub_def, Vector3.dot]
    norm_num
  simp only [Scene.trace, Scene.hits, ex_scene_glass]
  simp only [List.filterMap_cons, hobj, List.filterMap_nil, Option.map_some']
  simp only [min_by_dist, List.foldl_cons, List.foldl_nil, min_step]

/-- Witness for C7: the grazing ray refracting from air (ior 1) into the
ior-1/2 glass floor has negative discriminant, `refract` is `none`, and the
shading of the hit reduces to the Fresnel-weighted reflected shade. -/
theorem C7_total_internal_reflection_witness :
    ex_ray_tir.refract ⟨0, 1, 0⟩ 1 (1/2) = none ∧
    get_color ex_scene_glass ex_ray_tir 0 =
      Color.clamp
        ((if (Object.plane ex_plane_glass).material.surface_type.diffuse_albedo > 0 then
            direct_term ex_scene_glass (Object.plane ex_plane_glass).material
              ((Object.plane ex_plane_glass).texture_coords
                (ex_ray_tir.origin + ex_ray_tir.direction * (2 : ℝ)))
              (ex_ray_tir.origin + ex_ray_tir.direction * (2 : ℝ))
              ((Object.plane ex_plane_glass).surface_normal
                (ex_ray_tir.origin + ex_ray_tir.direction * (2 : ℝ)))
          else ⟨0, 0, 0⟩) +
          get_color ex_scene_glass
            ⟨ex_ray_tir.origin + ex_ray_tir.direction * (2 : ℝ) +
                (Object.plane ex_plane_glass).surface_normal
                  (ex_ray_tir.origin + ex_ray_tir.direction * (2 : ℝ)),
              ex_ray_tir.reflect_direction
                ((Object.plane ex_plane_glass).surface_normal
                  (ex_ray_tir.origin + ex_ray_tir.direction * (2 : ℝ)))⟩ 1 *
            ex_ray_tir.fresnel
              ((Object.plane ex_plane_glass).surface_normal
                (ex_ray_tir.origin + ex_ray_tir.direction * (2 : ℝ))) 1
              (Object.plane ex_plane_glass).material.surface_type.refractive_index) := by
  have h1 : ex_ray_tir.refract ⟨0, 1, 0⟩ 1 (1/2) = none := by
    apply (C7_total_internal_reflection.1 ex_ray_tir ⟨0, 1, 0⟩ 1 (1/2)).mpr
    unfold Ray.refract_discriminant
    simp only [ex_ray_tir, Vector3.normalize, Vector3.length, Vector3.norm, Vector3.dot]
    norm_num [Real.sqrt_one]
  refine ⟨h1, ?_⟩
  exact C7_total_internal_reflection.2 ex_scene_glass ex_ray_tir 0
    ⟨2, Object.plane ex_plane_glass⟩ (by norm_num) ex_glass_trace
    (by norm_num [Object.material, ex_plane_glass, ex_mat_glass])
    (by
      show ex_ray_tir.refract
        ((Object.plane ex_plane_glass).surface_normal
          (ex_ray_tir.origin + ex_ray_tir.direction * (2 : ℝ))) 1
        (Object.plane ex_plane_glass).material.surface_type.refractive_index = none
      rw [ex_glass_normal]
      exact h1)

end

end RT
